import Mathlib

/-!
Shallow embedding of the FM transmitter sources
`src/training/ad9361_zed/tx-fm/tx-fm-zed.c` (streaming variant) and
`src/training/ad9361_zed/tx-fm/tx-fm-zed-preload.c` (preload variant).

Modelling conventions:
* C `double` arithmetic is modelled by exact real arithmetic.  The C
  library `fmod` is the remainder with the sign of the dividend,
  `fmod x y = x - y * trunc (x / y)`, and a C cast from `double` to an
  integer type truncates toward zero (`rtz` below).
* Machine integers are modelled by `Int`; the modulator outputs are
  proved to stay inside the `int16_t` range, so no wrapping arises.
* The hardware (libiio) calls are modelled as an event trace; the two
  `main` functions are modelled as functions from an environment
  (configuration values plus the success/failure of each external call)
  to the emitted trace of hardware events and the exit code.
-/

/-- Truncation toward zero: the semantics of a C cast from `double` to an
integer type (C17 6.3.1.4) and of the implicit truncation inside `fmod`. -/
noncomputable def rtz (x : ℝ) : ℤ := if 0 ≤ x then ⌊x⌋ else ⌈x⌉

/-- C library `fmod`: remainder of `x / y` carrying the sign of the
dividend, `fmod(x, y) = x - trunc(x / y) * y`. -/
noncomputable def fmod (x y : ℝ) : ℝ := x - y * rtz (x / y)

/-- State of the continuous-phase FM modulator.  In the preload variant
these are the globals `phase_accum`, `deviation_scale`, `time_per_sample`
(lines 31-33); in the streaming variant the same three doubles are the
`signal` pointee and the two extra parameters of `modulate_sample`. -/
structure ModState where
  phase_accum : ℝ
  deviation_scale : ℝ
  time_per_sample : ℝ

/-- `modulate_sample`, lines 51-57 of tx-fm-zed-preload.c; the arithmetic
of lines 34-41 of tx-fm-zed.c is identical.  Returns the updated state
together with the `(i_sample, q_sample)` pair; `0x7FFF = 32767`. -/
noncomputable def modulate_sample (st : ModState) (deviation : ℤ) :
    ModState × ℤ × ℤ :=
  let dev_hz : ℝ := (deviation : ℝ) * st.deviation_scale
  let dphi : ℝ := 2 * Real.pi * dev_hz * st.time_per_sample
  let phase : ℝ := fmod (st.phase_accum + dphi) (2 * Real.pi)
  (⟨phase, st.deviation_scale, st.time_per_sample⟩,
    rtz (Real.cos phase * 32767), rtz (Real.sin phase * 32767))

/-- The modulator contract exactly as the spec (section 4.1) words it,
including its `round` on the outputs.  Kept separate from the code's
`modulate_sample` so the two can be compared. -/
noncomputable def specModulate (st : ModState) (d : ℤ) : ModState × ℤ × ℤ :=
  let freqHz : ℝ := (d : ℝ) * st.deviation_scale
  let phaseIncrement : ℝ := 2 * Real.pi * freqHz * st.time_per_sample
  let phase : ℝ := fmod (st.phase_accum + phaseIncrement) (2 * Real.pi)
  (⟨phase, st.deviation_scale, st.time_per_sample⟩,
    round (Real.cos phase * 32767), round (Real.sin phase * 32767))

/-- The spec formula amended to what the C cast actually does: truncation
toward zero (floor for nonnegative values, ceiling for negative ones)
instead of rounding to nearest. -/
noncomputable def specModulateTrunc (st : ModState) (d : ℤ) : ModState × ℤ × ℤ :=
  let freqHz : ℝ := (d : ℝ) * st.deviation_scale
  let phaseIncrement : ℝ := 2 * Real.pi * freqHz * st.time_per_sample
  let phase : ℝ := fmod (st.phase_accum + phaseIncrement) (2 * Real.pi)
  (⟨phase, st.deviation_scale, st.time_per_sample⟩,
    (if 0 ≤ Real.cos phase * 32767 then ⌊Real.cos phase * 32767⌋
      else ⌈Real.cos phase * 32767⌉),
    (if 0 ≤ Real.sin phase * 32767 then ⌊Real.sin phase * 32767⌋
      else ⌈Real.sin phase * 32767⌉))

lemma rtz_le_of_le {x : ℝ} {c : ℤ} (h : x ≤ (c : ℝ)) : rtz x ≤ c := by
  unfold rtz
  split
  · simpa using Int.floor_mono h
  · simpa using Int.ceil_mono h

lemma le_rtz_of_le {x : ℝ} {c : ℤ} (h : (c : ℝ) ≤ x) : c ≤ rtz x := by
  unfold rtz
  split
  · simpa using Int.floor_mono h
  · simpa using Int.ceil_mono h

lemma rtz_dist_lt_one (q : ℝ) : q - rtz q < 1 ∧ -1 < q - rtz q := by
  unfold rtz
  split
  · exact ⟨by linarith [Int.sub_one_lt_floor q], by linarith [Int.floor_le q]⟩
  · exact ⟨by linarith [Int.le_ceil q], by linarith [Int.ceil_lt_add_one q]⟩

/-- The C `fmod` with a positive modulus lands strictly inside `(-y, y)`:
it carries the sign of the dividend, it does not canonicalise to `[0, y)`. -/
lemma fmod_bounds (x : ℝ) {y : ℝ} (hy : 0 < y) :
    -y < fmod x y ∧ fmod x y < y := by
  have h := rtz_dist_lt_one (x / y)
  have hx : fmod x y = y * (x / y - rtz (x / y)) := by
    unfold fmod
    rw [mul_sub, mul_div_cancel₀ _ (ne_of_gt hy)]
  constructor
  · rw [hx]
    nlinarith [h.2]
  · rw [hx]
    nlinarith [h.1]

/-- For arguments already strictly inside `(-y, y)`, `fmod` is the identity. -/
lemma fmod_eq_self {x y : ℝ} (hy : 0 < y) (h1 : -y < x) (h2 : x < y) :
    fmod x y = x := by
  have hq1 : x / y < 1 := (div_lt_one hy).mpr h2
  have hq2 : (-1 : ℝ) < x / y := by
    rw [lt_div_iff₀ hy]
    linarith
  have hz : rtz (x / y) = 0 := by
    unfold rtz
    split
    · exact Int.floor_eq_zero_iff.mpr ⟨by assumption, hq1⟩
    · rename_i h
      push_neg at h
      exact Int.ceil_eq_zero_iff.mpr ⟨hq2, le_of_lt h⟩
  unfold fmod
  rw [hz]
  push_cast
  ring

lemma rtz_trig_bound {x : ℝ} (h1 : -1 ≤ x) (h2 : x ≤ 1) :
    -32767 ≤ rtz (x * 32767) ∧ rtz (x * 32767) ≤ 32767 := by
  constructor
  · exact le_rtz_of_le (by push_cast; nlinarith)
  · exact rtz_le_of_le (by push_cast; nlinarith)

/-- C1 (amended): `modulate_sample` computes `freqHz = deviationSample ×
deviationScale`, `phaseIncrement = 2π × freqHz × secondsPerSample`, sets
the accumulator to `fmod (phaseAccumulator + phaseIncrement) (2π)` and
outputs `cos`/`sin` of the new phase scaled by 32767 and truncated toward
zero — truncation, not the rounding to nearest that the claim states. -/
theorem C1_modulate_truncates (st : ModState) (d : ℤ) :
    modulate_sample st d = specModulateTrunc st d := by
  simp [modulate_sample, specModulateTrunc, rtz]

/-- C1 counterexample: with phase 0, `deviationScale = 1` and
`secondsPerSample = 1/6`, a deviation sample of 1 drives the phase to
`π/3`, where `cos(π/3)·32767 = 16383.5`.  The code truncates to 16383
while the claim's `round` yields 16384, so `modulate_sample` is not the
claimed round-based formula. -/
theorem C1_round_counterexample :
    (modulate_sample ⟨0, 1, 1/6⟩ 1).2.1 = 16383 ∧
    (specModulate ⟨0, 1, 1/6⟩ 1).2.1 = 16384 ∧
    modulate_sample ⟨0, 1, 1/6⟩ 1 ≠ specModulate ⟨0, 1, 1/6⟩ 1 := by
  have harg : (0 : ℝ) + 2 * Real.pi * (((1 : ℤ) : ℝ) * 1) * (1/6) = Real.pi/3 := by
    push_cast
    ring
  have hb : fmod (Real.pi/3) (2 * Real.pi) = Real.pi/3 :=
    fmod_eq_self Real.two_pi_pos (by linarith [Real.pi_pos])
      (by linarith [Real.pi_pos])
  have hcos : Real.cos (Real.pi/3) * 32767 = 32767/2 := by
    rw [Real.cos_pi_div_three]
    ring
  have hrtz : rtz ((32767 : ℝ)/2) = 16383 := by
    unfold rtz
    rw [if_pos (by norm_num), Int.floor_eq_iff]
    norm_num
  have hround : round ((32767 : ℝ)/2) = 16384 := by
    rw [round_eq]
    norm_num
  have hi : (modulate_sample ⟨0, 1, 1/6⟩ 1).2.1 = 16383 := by
    simp only [modulate_sample]
    rw [harg, hb, hcos, hrtz]
  have hs : (specModulate ⟨0, 1, 1/6⟩ 1).2.1 = 16384 := by
    simp only [specModulate]
    rw [harg, hb, hcos, hround]
  refine ⟨hi, hs, fun heq => ?_⟩
  have := congrArg (fun p => p.2.1) heq
  simp only at this
  rw [hi, hs] at this
  norm_num at this

/-- C3 (amended): immediately after every update the phase accumulator
lies strictly inside `(-2π, 2π)` — not `[0, 2π)`, since C `fmod` keeps
the sign of the dividend — hence it never grows unbounded over any run. -/
theorem C3_phase_bounded (st : ModState) (d : ℤ) :
    -(2 * Real.pi) < (modulate_sample st d).1.phase_accum ∧
    (modulate_sample st d).1.phase_accum < 2 * Real.pi := by
  have h := fmod_bounds
    (st.phase_accum + 2 * Real.pi * ((d : ℝ) * st.deviation_scale) *
      st.time_per_sample) Real.two_pi_pos
  simpa [modulate_sample] using h

/-- C3 counterexample: with phase 0, `deviationScale = 1`,
`secondsPerSample = 1/6`, one negative deviation sample (-1) leaves the
accumulator at `-π/3 < 0`, outside the claimed range `[0, 2π)`. -/
theorem C3_phase_negative_counterexample :
    (modulate_sample ⟨0, 1, 1/6⟩ (-1)).1.phase_accum < 0 := by
  have harg : (0 : ℝ) + 2 * Real.pi * (((-1 : ℤ) : ℝ) * 1) * (1/6) = -(Real.pi/3) := by
    push_cast
    ring
  have hb : fmod (-(Real.pi/3)) (2 * Real.pi) = -(Real.pi/3) :=
    fmod_eq_self Real.two_pi_pos (by linarith [Real.pi_pos])
      (by linarith [Real.pi_pos])
  have hp : (modulate_sample ⟨0, 1, 1/6⟩ (-1)).1.phase_accum = -(Real.pi/3) := by
    simp only [modulate_sample]
    rw [harg, hb]
  rw [hp]
  simp [Real.pi_pos]

/-- C10: both modulator outputs always lie in `[-32767, 32767]`: the
cosine and sine are bounded by 1 in absolute value, so the scaled double
truncates to a value that fits `int16_t` with no overflow or wrap. -/
theorem C10_output_range (st : ModState) (d : ℤ) :
    (-32767 ≤ (modulate_sample st d).2.1 ∧ (modulate_sample st d).2.1 ≤ 32767) ∧
    (-32767 ≤ (modulate_sample st d).2.2 ∧ (modulate_sample st d).2.2 ≤ 32767) := by
  simp only [modulate_sample]
  exact ⟨rtz_trig_bound (Real.neg_one_le_cos _) (Real.cos_le_one _),
    rtz_trig_bound (Real.neg_one_le_sin _) (Real.sin_le_one _)⟩

/-- One-pass modulation of a list of deviation samples, threading the
modulator state left to right (the inner buffer-filling loops of both
variants, with the buffer structure erased). -/
noncomputable def modList : ModState → List ℤ → ModState × List (ℤ × ℤ)
  | m, [] => (m, [])
  | m, d :: rest =>
    let r := modulate_sample m d
    let r2 := modList r.1 rest
    (r2.1, r.2 :: r2.2)

lemma modList_append (st : ModState) (a b : List ℤ) :
    modList st (a ++ b) =
      ((modList (modList st a).1 b).1,
        (modList st a).2 ++ (modList (modList st a).1 b).2) := by
  induction a generalizing st with
  | nil => simp [modList]
  | cons d rest ih => simp [modList, ih]

lemma modList_params (st : ModState) (l : List ℤ) :
    (modList st l).1.deviation_scale = st.deviation_scale ∧
    (modList st l).1.time_per_sample = st.time_per_sample := by
  induction l generalizing st with
  | nil => simp [modList]
  | cons d rest ih => simpa [modList, modulate_sample] using ih _

lemma modList_length (st : ModState) (l : List ℤ) :
    (modList st l).2.length = l.length := by
  induction l generalizing st with
  | nil => simp [modList]
  | cons d rest ih => simp [modList, ih]

/-- State of the Streaming Source of tx-fm-zed.c: the bytes still to be
read on stdin (at 16-bit sample granularity) together with the global
`stop` flag that `get_next_sample` sets on a short read. -/
structure SrcState where
  feed : List ℤ
  stop : Bool

/-- `get_next_sample`, lines 25-32 of tx-fm-zed.c: on a short read it
sets `stop` and returns 0; otherwise it consumes one sample. -/
def get_next_sample : SrcState → SrcState × ℤ
  | ⟨[], _⟩ => (⟨[], true⟩, 0)
  | ⟨d :: rest, s⟩ => (⟨rest, s⟩, d)

/-- The buffer-filling for loop, lines 121-127 of tx-fm-zed.c: for each
of the `n` slots it pulls one sample from the source and writes the
modulated pair.  There is no early exit: the loop runs to `p_end`
unconditionally. -/
noncomputable def fill_buffer :
    ℕ → SrcState → ModState → SrcState × ModState × List (ℤ × ℤ)
  | 0, src, m => (src, m, [])
  | n + 1, src, m =>
    let g := get_next_sample src
    let r := modulate_sample m g.2
    let rest := fill_buffer n g.1 r.1
    (rest.1, rest.2.1, r.2 :: rest.2.2)

lemma fill_buffer_length (n : ℕ) (src : SrcState) (m : ModState) :
    (fill_buffer n src m).2.2.length = n := by
  induction n generalizing src m with
  | zero => simp [fill_buffer]
  | succ k ih => simp [fill_buffer, ih]

/-- Filling a buffer whose size matches an available prefix of the feed
consumes exactly that prefix and modulates it in order. -/
lemma fill_buffer_exact (l rest : List ℤ) (s : Bool) (m : ModState) :
    fill_buffer l.length ⟨l ++ rest, s⟩ m = (⟨rest, s⟩, modList m l) := by
  induction l generalizing m with
  | nil => simp [fill_buffer, modList]
  | cons d t ih => simp [fill_buffer, get_next_sample, modList, ih]

/-- Running the buffer filler over a list of consecutive buffers (of
arbitrary sizes) with a persistent source and modulator state,
concatenating the produced (I, Q) pairs — the outer transmission loop of
tx-fm-zed.c with the pacing and hardware push erased. -/
noncomputable def fillChunks :
    List ℕ → SrcState → ModState → SrcState × ModState × List (ℤ × ℤ)
  | [], src, m => (src, m, [])
  | n :: sizes, src, m =>
    let r := fill_buffer n src m
    let r2 := fillChunks sizes r.1 r.2.1
    (r2.1, r2.2.1, r.2.2 ++ r2.2.2)

/-- C2: for every deviation sequence and every way of chunking it into
buffers (`chunks` is the chunking; its flattening is the sequence), the
concatenated (I, Q) output of running the filler buffer by buffer with a
persistent modulator state equals the one-pass modulation of the
unchunked sequence: buffer boundaries introduce no phase discontinuity. -/
theorem C2_chunking_invariant (chunks : List (List ℤ)) (m : ModState) :
    (fillChunks (chunks.map List.length) ⟨chunks.flatten, false⟩ m).2.2 =
      (modList m chunks.flatten).2 := by
  induction chunks generalizing m with
  | nil => simp [fillChunks, modList]
  | cons c rest ih =>
    simp only [List.map_cons, List.flatten_cons, fillChunks,
      fill_buffer_exact c rest.flatten false m]
    rw [modList_append]
    simp [ih]

/-- C5 (amended): the filler never stops early.  It always writes all `n`
slots; once the feed is exhausted, `get_next_sample` keeps being called
and yields 0, so the remaining slots receive the modulation of deviation
0; and the `stop` flag ends up set exactly when the feed held fewer than
`n` samples, which is what later terminates the transmission loop. -/
theorem C5_fill_pads_zeros (n : ℕ) (src : SrcState) (m : ModState) :
    (fill_buffer n src m).2.2 =
      (modList m (src.feed.take n ++ List.replicate (n - src.feed.length) 0)).2 ∧
    (fill_buffer n src m).1.stop = (src.stop || decide (src.feed.length < n)) := by
  induction n generalizing src m with
  | zero => simp [fill_buffer, modList]
  | succ k ih =>
    obtain ⟨feed, s⟩ := src
    cases feed with
    | nil =>
      have h := ih ⟨[], true⟩ (modulate_sample m 0).1
      constructor
      · simp only [fill_buffer, get_next_sample, List.take_nil, List.nil_append,
          List.replicate, modList] at h ⊢
        simp [h.1]
      · simp only [fill_buffer, get_next_sample] at h ⊢
        simp [h.2]
    | cons d rest =>
      have h := ih ⟨rest, s⟩ (modulate_sample m d).1
      constructor
      · simp only [fill_buffer, get_next_sample, List.take_cons, List.length_cons,
          Nat.succ_sub_succ, List.cons_append, modList] at h ⊢
        simp [h.1]
      · simp only [fill_buffer, get_next_sample, List.length_cons] at h ⊢
        rw [h.2]
        simp [Nat.succ_lt_succ_iff]

/-- C5 counterexample: a feed holding exactly one sample and a buffer of
two slots.  The claim requires the filler to stop after 1 slot and return
the short count 1; the code fills both slots (the second from the
exhausted source) and reports 2. -/
theorem C5_short_count_counterexample :
    (fill_buffer 2 ⟨[7], false⟩ ⟨0, 1, 1⟩).2.2.length = 2 ∧
    (fill_buffer 2 ⟨[7], false⟩ ⟨0, 1, 1⟩).2.2.length ≠ 1 := by
  constructor
  · exact fill_buffer_length 2 _ _
  · rw [fill_buffer_length]
    decide

/-- The outer transmission loop of tx-fm-zed-preload.c, lines 134-156,
with the pacing and the hardware push erased and the stop flag held
false: each pass begins by resetting `phase_accum = 0.0` and `index = 0`
(lines 135-136) and then modulates the whole preloaded sample list. -/
noncomputable def runPasses : ℕ → ModState → List ℤ → ModState × List (ℤ × ℤ)
  | 0, m, _ => (m, [])
  | n + 1, m, samps =>
    let r := modList ⟨0, m.deviation_scale, m.time_per_sample⟩ samps
    let r2 := runPasses n r.1 samps
    (r2.1, r.2 ++ r2.2)

/-- C6: each pass of the looping transmission loop produces the identical
(I, Q) sequence, because phase and cursor are reset to 0 at the start of
every pass; in particular over two passes the output for sample `L + 1`
(index `L`, 0-based) equals the output for sample 1 (index 0). -/
theorem C6_looping_restart (n : ℕ) (m : ModState) (samps : List ℤ) :
    (runPasses n m samps).2 =
      (List.replicate n
        (modList ⟨0, m.deviation_scale, m.time_per_sample⟩ samps).2).flatten ∧
    (runPasses 2 m samps).2[samps.length]? = (runPasses 2 m samps).2[0]? := by
  have hpass : ∀ k (m' : ModState), (runPasses k m' samps).2 =
      (List.replicate k
        (modList ⟨0, m'.deviation_scale, m'.time_per_sample⟩ samps).2).flatten := by
    intro k
    induction k with
    | zero => intro m'; simp [runPasses]
    | succ j ih =>
      intro m'
      have hp := modList_params ⟨0, m'.deviation_scale, m'.time_per_sample⟩ samps
      simp only [runPasses, List.replicate, List.flatten_cons]
      rw [ih, hp.1, hp.2]
  constructor
  · exact hpass n m
  · set P := (modList ⟨0, m.deviation_scale, m.time_per_sample⟩ samps).2 with hP
    have h2 : (runPasses 2 m samps).2 = P ++ (P ++ []) := by
      rw [hpass 2 m]
      rfl
    have hlen : P.length = samps.length := modList_length _ _
    rw [h2, List.append_nil]
    rw [show (P ++ P)[samps.length]? = P[samps.length - P.length]? from
      List.getElem?_append_right (le_of_eq hlen)]
    rw [hlen, Nat.sub_self]
    cases P with
    | nil => simp
    | cons a t => simp

/-- The `struct timespec` of the preload variant's pacing state, with
both fields as unbounded integers (`time_t` and `long` never overflow for
any realistic run; the claim is about the carry into `tv_sec`). -/
structure Timespec where
  tv_sec : ℤ
  tv_nsec : ℤ
deriving DecidableEq

/-- The carry loop inside `time_add_ns`, lines 45-48 of
tx-fm-zed-preload.c: while `tv_nsec >= 1000000000`, move one second from
the nanosecond field to the seconds field. -/
def norm_nsec (sec nsec : ℤ) : Timespec :=
  if h : 1000000000 ≤ nsec then norm_nsec (sec + 1) (nsec - 1000000000)
  else ⟨sec, nsec⟩
termination_by nsec.toNat
decreasing_by
  omega

/-- `time_add_ns`, lines 43-49 of tx-fm-zed-preload.c: add `ns` to the
nanosecond field, then carry into seconds. -/
def time_add_ns (t : Timespec) (ns : ℤ) : Timespec :=
  norm_nsec t.tv_sec (t.tv_nsec + ns)

/-- Absolute value of a timestamp in nanoseconds. -/
def toNs (t : Timespec) : ℤ := t.tv_sec * 1000000000 + t.tv_nsec

/-- Deadline after `N` iterations of the inner transmission loop: the
loop body applies `time_add_ns(&t, DEFAULT_BUFFER_TIME * 1e9)` once per
buffer (line 153 of tx-fm-zed-preload.c). -/
def deadlineAfter (ns : ℤ) : ℕ → Timespec → Timespec
  | 0, t => t
  | n + 1, t => deadlineAfter ns n (time_add_ns t ns)

lemma norm_nsec_toNs (sec nsec : ℤ) :
    toNs (norm_nsec sec nsec) = sec * 1000000000 + nsec := by
  induction sec, nsec using norm_nsec.induct with
  | case1 s n h ih =>
    rw [norm_nsec, dif_pos h]
    unfold toNs at ih ⊢
    omega
  | case2 s n h =>
    rw [norm_nsec, dif_neg h]
    rfl

lemma norm_nsec_lt (sec nsec : ℤ) :
    (norm_nsec sec nsec).tv_nsec < 1000000000 := by
  induction sec, nsec using norm_nsec.induct with
  | case1 s n h ih =>
    rw [norm_nsec, dif_pos h]
    exact ih
  | case2 s n h =>
    rw [norm_nsec, dif_neg h]
    simp only []
    omega

lemma toNs_time_add_ns (t : Timespec) (ns : ℤ) :
    toNs (time_add_ns t ns) = toNs t + ns := by
  unfold time_add_ns
  rw [norm_nsec_toNs]
  unfold toNs
  ring

/-- C4: after `N` buffer iterations the deadline equals the initial
deadline plus exactly `N × ns` nanoseconds — the addition acts on the
absolute timestamp, the nanosecond overflow is carried into the seconds
field (the normalised `tv_nsec` stays below 10⁹) and nothing wraps or
saturates, independent of any loop overhead (which never enters the
computation). -/
theorem C4_deadline_exact (N : ℕ) (t0 : Timespec) (ns : ℤ) :
    toNs (deadlineAfter ns N t0) = toNs t0 + N * ns ∧
    (time_add_ns t0 ns).tv_nsec < 1000000000 := by
  constructor
  · induction N generalizing t0 with
    | zero => simp [deadlineAfter]
    | succ k ih =>
      show toNs (deadlineAfter ns k (time_add_ns t0 ns)) = _
      rw [ih, toNs_time_add_ns]
      push_cast
      ring
  · exact norm_nsec_lt _ _

/-- Source-state evolution of the buffer-filling loop alone (the (I, Q)
computation projected away); used by the trace model of `main`. -/
def fillSrc : ℕ → SrcState → SrcState
  | 0, src => src
  | n + 1, src => fillSrc n (get_next_sample src).1

lemma fill_buffer_src (n : ℕ) (src : SrcState) (m : ModState) :
    (fill_buffer n src m).1 = fillSrc n src := by
  induction n generalizing src m with
  | zero => rfl
  | succ k ih => simp [fill_buffer, fillSrc, ih]

lemma fillSrc_stop_mono (n : ℕ) (t : SrcState) (ht : t.stop = true) :
    (fillSrc n t).stop = true := by
  induction n generalizing t with
  | zero => simpa [fillSrc] using ht
  | succ j ih =>
    obtain ⟨f, s⟩ := t
    cases f with
    | nil => exact ih ⟨[], true⟩ rfl
    | cons a b =>
      simp only [fillSrc, get_next_sample]
      exact ih ⟨b, s⟩ (by simpa using ht)

lemma fillSrc_feed_le (n : ℕ) (src : SrcState) :
    (fillSrc n src).feed.length ≤ src.feed.length := by
  induction n generalizing src with
  | zero => exact le_refl _
  | succ k ih =>
    obtain ⟨feed, s⟩ := src
    cases feed with
    | nil => simpa [fillSrc, get_next_sample] using ih ⟨[], true⟩
    | cons d rest =>
      have := ih ⟨rest, s⟩
      simp only [fillSrc, get_next_sample] at this ⊢
      simp only [List.length_cons]
      omega

lemma fillSrc_not_stop (n : ℕ) (src : SrcState)
    (h : (fillSrc n src).stop = false) :
    (fillSrc n src).feed.length + n = src.feed.length := by
  induction n generalizing src with
  | zero => simp [fillSrc]
  | succ k ih =>
    obtain ⟨feed, s⟩ := src
    cases feed with
    | nil =>
      exfalso
      simp only [fillSrc, get_next_sample] at h
      rw [fillSrc_stop_mono k ⟨[], true⟩ rfl] at h
      simp at h
    | cons d rest =>
      have := ih ⟨rest, s⟩ (by simpa [fillSrc, get_next_sample] using h)
      simp only [fillSrc, get_next_sample] at this ⊢
      simp only [List.length_cons]
      omega

/-- The externally observable hardware (libiio) actions of the two
programs, in program order. -/
inductive HwEvent where
  | loFreq (f : ℤ)
  | loPower (v : ℤ)
  | hardwaregain
  | samplingFrequency (r : ℤ)
  | rfBandwidth
  | chanEnableI
  | chanEnableQ
  | bufPush (k : ℕ)
  | bufDestroy
  | chanDisableI
  | chanDisableQ
  | ctxDestroy
deriving DecidableEq

/-- The transmission while loop of tx-fm-zed.c, lines 116-134, as the
trace of buffer pushes it performs.  Iteration `k` fills the buffer
(which may set `stop` on feed exhaustion), pushes it, breaks on a push
error, and otherwise re-checks `stop`.  Signal delivery is modelled
separately (claim C9); here the feed is finite, so the loop terminates.
The `bufLen = 0` guard is dead code (after validation `bufLen ≥ 40000`)
needed only so the recursion is well defined. -/
def txLoop (bufLen : ℕ) (pushOk : ℕ → Bool) (src : SrcState) (k : ℕ) :
    List HwEvent :=
  if hstop : src.stop then []
  else if hb : bufLen = 0 then []
  else
    let src2 := fillSrc bufLen src
    if hp : pushOk k then
      HwEvent.bufPush k :: txLoop bufLen pushOk src2 (k + 1)
    else [HwEvent.bufPush k]
termination_by src.feed.length + (cond src.stop 0 1)
decreasing_by
  have hs0 : src.stop = false := by simpa using hstop
  cases h2 : (fillSrc bufLen src).stop with
  | false =>
    have h3 := fillSrc_not_stop bufLen src h2
    have hb1 : 1 ≤ bufLen := Nat.one_le_iff_ne_zero.mpr hb
    simp only [h2, hs0, Bool.cond_false]
    omega
  | true =>
    have h3 := fillSrc_feed_le bufLen src
    simp only [h2, hs0, Bool.cond_false, Bool.cond_true]
    omega

/-- Environment of one run of the streaming variant: the parsed
configuration values and the outcome of each external call. -/
structure StreamEnv where
  center_freq : ℤ
  sample_rate : ℤ
  ctxOk : Bool
  devsOk : Bool
  chansOk : Bool
  bufOk : Bool
  pushOk : ℕ → Bool
  feed : List ℤ

/-- `main` of tx-fm-zed.c, lines 43-145, as the trace of hardware events
it emits and its exit code.  Mirrors the source order: range validation
(lines 60-67), context and device/channel lookup (68-90), configuration
writes and channel enables (92-100), buffer creation (102-107), the
transmission loop, and the shutdown path (136-144) with its
`powerdown = 1` write.  `bufLen` models `(size_t)(0.04 * sample_rate)`
(C double rounding of 0.04 can be off by one sample; no claim depends on
the exact size). -/
def streamMain (env : StreamEnv) : List HwEvent × ℤ :=
  if env.center_freq < 70000000 ∨ 6000000000 < env.center_freq then ([], 1)
  else if env.sample_rate < 1000000 ∨ 61440000 < env.sample_rate then ([], 1)
  else if env.ctxOk = false then ([], 1)
  else if env.devsOk = false then ([], 1)
  else if env.chansOk = false then ([], 1)
  else
    let cfg := [HwEvent.loFreq env.center_freq, HwEvent.loPower 0,
      HwEvent.hardwaregain, HwEvent.samplingFrequency env.sample_rate,
      HwEvent.rfBandwidth, HwEvent.chanEnableI, HwEvent.chanEnableQ]
    if env.bufOk = false then (cfg, 1)
    else
      let bufLen := (env.sample_rate * 4 / 100).toNat
      let loop := txLoop bufLen env.pushOk ⟨env.feed, false⟩ 0
      (cfg ++ loop ++ [HwEvent.loPower 1, HwEvent.bufDestroy,
        HwEvent.chanDisableI, HwEvent.chanDisableQ, HwEvent.ctxDestroy], 0)

/-- Environment of the startup phase of the preload variant. -/
structure PreloadEnv where
  center_freq : ℤ
  sample_rate : ℤ
  input_given : Bool
  fopenOk : Bool
  mallocOk : Bool
  ctxOk : Bool
  devsOk : Bool
  bufOk : Bool

/-- Startup of `main` of tx-fm-zed-preload.c, lines 59-132, up to the
point where the transmission loop would be entered: the emitted hardware
trace, and `some code` for an early exit or `none` when the program
enters the Running loop.  Faithful to the source: the only input checked
is the presence of `-i`; center frequency and sample rate are written to
the hardware unvalidated. -/
def preloadStartup (env : PreloadEnv) : List HwEvent × Option ℤ :=
  if env.input_given = false then ([], some 1)
  else if env.fopenOk = false then ([], some 1)
  else if env.mallocOk = false then ([], some 1)
  else if env.ctxOk = false then ([], some 1)
  else if env.devsOk = false then ([], some 1)
  else
    let cfg := [HwEvent.loFreq env.center_freq, HwEvent.loPower 0,
      HwEvent.hardwaregain, HwEvent.samplingFrequency env.sample_rate,
      HwEvent.chanEnableI, HwEvent.chanEnableQ]
    if env.bufOk = false then (cfg, some 1)
    else (cfg, none)

/-- C7 counterexample: with valid configuration, working context, devices
and channels, but a failing buffer creation, BOTH variants have already
written `powerdown = 0` (the LO is up) and exit with status 1 without
ever writing `powerdown = 1`: this fatal path leaves the transmitter
powered.  Streaming variant: lines 102-107 of tx-fm-zed.c after the
power-up at line 94; preload variant: lines 127-132 of
tx-fm-zed-preload.c after the power-up at line 120. -/
theorem C7_powerdown_counterexample :
    ((streamMain ⟨96500000, 2304000, true, true, true, false, fun _ => true, []⟩).2 = 1 ∧
      HwEvent.loPower 0 ∈
        (streamMain ⟨96500000, 2304000, true, true, true, false, fun _ => true, []⟩).1 ∧
      HwEvent.loPower 1 ∉
        (streamMain ⟨96500000, 2304000, true, true, true, false, fun _ => true, []⟩).1) ∧
    ((preloadStartup ⟨96500000, 2304000, true, true, true, true, true, false⟩).2 = some 1 ∧
      HwEvent.loPower 0 ∈
        (preloadStartup ⟨96500000, 2304000, true, true, true, true, true, false⟩).1 ∧
      HwEvent.loPower 1 ∉
        (preloadStartup ⟨96500000, 2304000, true, true, true, true, true, false⟩).1) := by
  decide

/-- C7 (amended): once the hardware buffer has been created, every exit
of the streaming variant — the push-failure break included — goes through
the shutdown path that writes `powerdown = 1`; but when buffer creation
fails after the LO was powered up, both variants exit with status 1
without any `powerdown = 1` write.  First conjunct: the streaming
variant, for every environment that reaches buffer creation.  Second
conjunct: the preload variant, for every environment that reaches buffer
creation and fails there. -/
theorem C7_powerdown_amended :
    (∀ env : StreamEnv,
      70000000 ≤ env.center_freq → env.center_freq ≤ 6000000000 →
      1000000 ≤ env.sample_rate → env.sample_rate ≤ 61440000 →
      env.ctxOk = true → env.devsOk = true → env.chansOk = true →
      (env.bufOk = true → HwEvent.loPower 1 ∈ (streamMain env).1) ∧
      (env.bufOk = false → (streamMain env).2 = 1 ∧
        HwEvent.loPower 0 ∈ (streamMain env).1 ∧
        HwEvent.loPower 1 ∉ (streamMain env).1)) ∧
    (∀ env : PreloadEnv,
      env.input_given = true → env.fopenOk = true → env.mallocOk = true →
      env.ctxOk = true → env.devsOk = true → env.bufOk = false →
      (preloadStartup env).2 = some 1 ∧
      HwEvent.loPower 0 ∈ (preloadStartup env).1 ∧
      HwEvent.loPower 1 ∉ (preloadStartup env).1) := by
  constructor
  · intro env hf1 hf2 hs1 hs2 hctx hdev hchan
    unfold streamMain
    rw [if_neg (by omega), if_neg (by omega), if_neg (by simp [hctx]),
      if_neg (by simp [hdev]), if_neg (by simp [hchan])]
    constructor
    · intro hb
      rw [if_neg (by simp [hb])]
      simp
    · intro hb
      rw [if_pos hb]
      refine ⟨rfl, by simp, by simp⟩
  · intro env hin hfo hma hctx hdev hbuf
    unfold preloadStartup
    rw [if_neg (by simp [hin]), if_neg (by simp [hfo]), if_neg (by simp [hma]),
      if_neg (by simp [hctx]), if_neg (by simp [hdev]), if_pos hbuf]
    refine ⟨rfl, by simp, by simp⟩

/-- C7 amended witness: a streaming run whose very first buffer push
fails still reaches the `powerdown = 1` write, and a preload run whose
buffer creation fails exits with status 1 having powered the LO up but
never down. -/
theorem C7_powerdown_amended_witness :
    (HwEvent.loPower 1 ∈
      (streamMain ⟨96500000, 2304000, true, true, true, true,
        fun _ => false, [1, 2]⟩).1) ∧
    ((preloadStartup ⟨96500000, 2304000, true, true, true, true, true, false⟩).2
        = some 1 ∧
      HwEvent.loPower 0 ∈
        (preloadStartup ⟨96500000, 2304000, true, true, true, true, true, false⟩).1 ∧
      HwEvent.loPower 1 ∉
        (preloadStartup ⟨96500000, 2304000, true, true, true, true, true, false⟩).1) :=
  ⟨(C7_powerdown_amended.1 _ (by decide) (by decide) (by decide) (by decide)
      rfl rfl rfl).1 rfl,
    C7_powerdown_amended.2 _ rfl rfl rfl rfl rfl rfl⟩

/-- C8 counterexample: the preload variant given a center frequency of 0
and a sample rate of 1 — both far outside the valid ranges — does not
exit: it proceeds to configure the hardware (writing the LO power-up
among others) and enters the Running loop, because tx-fm-zed-preload.c
never validates frequency or sample rate. -/
theorem C8_preload_no_validation_counterexample :
    (preloadStartup ⟨0, 1, true, true, true, true, true, true⟩).2 = none ∧
    HwEvent.loPower 0 ∈
      (preloadStartup ⟨0, 1, true, true, true, true, true, true⟩).1 := by
  decide

/-- C8 (amended): only the streaming variant validates the configuration:
an out-of-range center frequency or sample rate makes tx-fm-zed.c exit
with status 1 before touching any hardware; and the preload variant's
only startup check is the presence of the input file, which likewise
exits 1 before touching hardware. -/
theorem C8_validation_amended :
    (∀ env : StreamEnv,
      (env.center_freq < 70000000 ∨ 6000000000 < env.center_freq ∨
        env.sample_rate < 1000000 ∨ 61440000 < env.sample_rate) →
      streamMain env = ([], 1)) ∧
    (∀ env : PreloadEnv, env.input_given = false →
      preloadStartup env = ([], some 1)) := by
  constructor
  · intro env h
    unfold streamMain
    by_cases hf : env.center_freq < 70000000 ∨ 6000000000 < env.center_freq
    · rw [if_pos hf]
    · rw [if_neg hf, if_pos (by omega)]
  · intro env h
    unfold preloadStartup
    rw [if_pos h]

/-- C8 amended witness: the streaming variant rejects frequency 0 with
exit 1 and an empty hardware trace, and the preload variant rejects a
missing input file the same way. -/
theorem C8_validation_amended_witness :
    streamMain ⟨0, 2304000, true, true, true, true, fun _ => true, []⟩ = ([], 1) ∧
    preloadStartup ⟨96500000, 2304000, false, true, true, true, true, true⟩ =
      ([], some 1) :=
  ⟨C8_validation_amended.1 _ (Or.inl (by decide)),
    C8_validation_amended.2 _ rfl⟩

/-- The events that can touch the `stop` flag during a run: delivery of
SIGINT (`handle_sig` / `signal_handler`, which assign `stop = true`), a
read inside `get_next_sample` of tx-fm-zed.c (`ok = false` is a short
read, which assigns `stop = true`; `ok = true` leaves the flag alone),
and any other program step (`tick`), none of which writes the flag. -/
inductive StopEv where
  | sigint
  | readSample (ok : Bool)
  | tick

/-- Effect of one event on the `stop` flag.  Every writer stores `true`;
no code path ever stores `false` after initialisation. -/
def stopStep (b : Bool) : StopEv → Bool
  | .sigint => true
  | .readSample ok => b || !ok
  | .tick => b

/-- Initial value of `static volatile bool stop = false`
(tx-fm-zed.c line 19, tx-fm-zed-preload.c line 23). -/
def stop_initial : Bool := false

/-- Number of `false → true` edges in a sequence of flag values. -/
def transitions : List Bool → ℕ
  | a :: b :: rest => (if a = false ∧ b = true then 1 else 0) + transitions (b :: rest)
  | _ => 0

lemma stopStep_true (e : StopEv) : stopStep true e = true := by
  cases e <;> simp [stopStep]

lemma transitions_scanl_le (l : List StopEv) :
    ∀ b : Bool, transitions (List.scanl stopStep b l) ≤ cond b 0 1 := by
  induction l with
  | nil => intro b; cases b <;> simp [List.scanl_nil, transitions]
  | cons e rest ih =>
    intro b
    rw [List.scanl_cons]
    obtain ⟨t, ht⟩ : ∃ t, List.scanl stopStep (stopStep b e) rest
        = stopStep b e :: t := by
      cases rest with
      | nil => exact ⟨[], by simp [List.scanl_nil]⟩
      | cons a l2 => exact ⟨_, by rw [List.scanl_cons]; rfl⟩
    have h2 := ih (stopStep b e)
    rw [ht] at h2
    rw [ht]
    show (if b = false ∧ stopStep b e = true then 1 else 0)
        + transitions (stopStep b e :: t) ≤ cond b 0 1
    cases b with
    | true =>
      rw [stopStep_true] at h2 ⊢
      simpa using h2
    | false =>
      cases hb2 : stopStep false e with
      | false =>
        rw [hb2] at h2
        simpa using h2
      | true =>
        rw [hb2] at h2
        simp at h2 ⊢
        omega

/-- C9: the stop flag starts out `false`, every event that writes it
writes `true` (so once `true` it stays `true` forever), and along any
sequence of events the flag makes at most one `false → true` transition
and is never reset. -/
theorem C9_stop_monotone :
    stop_initial = false ∧
    (∀ e, stopStep true e = true) ∧
    (∀ l : List StopEv, transitions (List.scanl stopStep stop_initial l) ≤ 1) := by
  refine ⟨rfl, stopStep_true, fun l => ?_⟩
  simpa using transitions_scanl_le l stop_initial
